import Mathlib

/-!
Verification of the asyncio synchronization primitives and the stream
buffer engine of this repository (`Lib/asyncio/locks.py`,
`Lib/asyncio/streams.py`), shallowly embedded in Lean.

Futures (Completion Signals) are modelled as a three-state cell
(`pending`, `resolved`, `cancelled`); waiter queues are lists of
(task id, future state) pairs in FIFO arrival order.  Cooperative tasks
interleave only at suspension points, so each code block between
suspension points becomes one atomic transition of a step relation.
-/

namespace Asyncio

/-- State of a Completion Signal (an asyncio Future as used by the
    primitives): not yet done, resolved with a result, or cancelled. -/
inductive FutState where
  | pending
  | resolved
  | cancelled
deriving DecidableEq

/-- `Future.done()`: true for a resolved or cancelled future. -/
def FutState.done : FutState → Bool
  | .pending => false
  | .resolved => true
  | .cancelled => true

/-- `Future.cancel()`: a pending future becomes cancelled; a done future
    is unchanged (the call returns False). -/
def FutState.cancel : FutState → FutState
  | .pending => .cancelled
  | f => f

/-- An entry of a waiter queue: the suspended task's id together with the
    state of the future it is awaiting. -/
structure Waiter where
  task : Nat
  fut : FutState
deriving DecidableEq

/-- Error raised by `Lock.release` on an unlocked lock
    (`RuntimeError('Lock is not acquired.')`, the spec's LockStateError). -/
inductive LockErr where
  | lockStateError
deriving DecidableEq

/-- The fields of `asyncio.locks.Lock`: `_locked` and `_waiters`
    (`_waiters is None` is modelled as the empty list). -/
structure Lock where
  locked : Bool
  waiters : List Waiter
deriving DecidableEq

/-- `Lock._wake_up_first`: look at the first waiter of the queue and
    resolve it only if it is not done; otherwise do nothing. -/
def Lock.wakeUpFirst : List Waiter → List Waiter
  | [] => []
  | w :: ws => if w.fut = .pending then { w with fut := .resolved } :: ws else w :: ws

/-- `Lock.release`: if locked, clear `_locked` and run `_wake_up_first`;
    otherwise raise (`RuntimeError`). -/
def Lock.release (l : Lock) : Except LockErr Lock :=
  if l.locked then .ok { locked := false, waiters := Lock.wakeUpFirst l.waiters }
  else .error .lockStateError

/-- The fast-path test of `Lock.acquire`:
    `not self._locked and (self._waiters is None or all(w.cancelled() for w in self._waiters))`. -/
def allCancelled (ws : List Waiter) : Bool :=
  ws.all (fun w => w.fut = .cancelled)

/-- A lock together with the set of tasks that are currently between a
    successful `acquire` and the corresponding `release`. -/
structure LockSys where
  lock : Lock
  holding : List Nat
deriving DecidableEq

/-- A freshly constructed lock: unlocked, no waiters, no holder. -/
def lockInit : LockSys := ⟨⟨false, []⟩, []⟩

/-- One atomic step of the cooperative system built from `Lock.acquire`,
    `Lock.release` and cancellation.  Each constructor is one block of
    `locks.py` code between suspension points:
    * `acquireFast`: the fast path of `acquire` (lock free, no live waiter);
    * `acquireEnqueue`: the slow path enqueues a fresh pending future;
    * `resumeResolved`: a waiter whose future was resolved resumes: the
      `finally` removes the future, then `self._locked = True`;
    * `cancelWaiter`: the scheduler cancels a pending waiter's future;
    * `resumeCancelled`: a cancelled waiter resumes: the `finally` removes
      its future, and if the lock is unlocked `_wake_up_first` runs before
      the cancellation is re-raised;
    * `releaseStep`: a task holding the lock calls `release()`. -/
inductive LockStep : LockSys → LockSys → Prop where
  | acquireFast (s : LockSys) (t : Nat)
      (hl : s.lock.locked = false) (hw : allCancelled s.lock.waiters = true) :
      LockStep s ⟨⟨true, s.lock.waiters⟩, t :: s.holding⟩
  | acquireEnqueue (s : LockSys) (t : Nat)
      (h : ¬(s.lock.locked = false ∧ allCancelled s.lock.waiters = true)) :
      LockStep s ⟨⟨s.lock.locked, s.lock.waiters ++ [⟨t, .pending⟩]⟩, s.holding⟩
  | resumeResolved (s : LockSys) (t : Nat) (w1 w2 : List Waiter)
      (h : s.lock.waiters = w1 ++ ⟨t, .resolved⟩ :: w2) :
      LockStep s ⟨⟨true, w1 ++ w2⟩, t :: s.holding⟩
  | cancelWaiter (s : LockSys) (t : Nat) (w1 w2 : List Waiter)
      (h : s.lock.waiters = w1 ++ ⟨t, .pending⟩ :: w2) :
      LockStep s ⟨⟨s.lock.locked, w1 ++ ⟨t, .cancelled⟩ :: w2⟩, s.holding⟩
  | resumeCancelled (s : LockSys) (t : Nat) (w1 w2 : List Waiter)
      (h : s.lock.waiters = w1 ++ ⟨t, .cancelled⟩ :: w2) :
      LockStep s ⟨⟨s.lock.locked,
        if s.lock.locked then w1 ++ w2 else Lock.wakeUpFirst (w1 ++ w2)⟩, s.holding⟩
  | releaseStep (s : LockSys) (t : Nat) (l' : Lock)
      (ht : t ∈ s.holding) (hr : Lock.release s.lock = .ok l') :
      LockStep s ⟨l', s.holding.erase t⟩

/-- States reachable from a fresh lock by interleaved acquire/release
    (with cancellation) steps. -/
inductive LockReach : LockSys → Prop where
  | init : LockReach lockInit
  | step {s s' : LockSys} : LockReach s → LockStep s s' → LockReach s'

/-- Number of resolved futures in a waiter queue. -/
def resolvedCount (ws : List Waiter) : Nat :=
  (ws.filter (fun w => w.fut = .resolved)).length

/-- Inductive invariant of the lock system: there is at most one
    "ownership token" (a holding task or a resolved waiter), a holder
    implies the lock is locked, a locked lock has no resolved waiter,
    and a resolved waiter can only sit at the head of the queue. -/
def LockInv (s : LockSys) : Prop :=
  s.holding.length + resolvedCount s.lock.waiters ≤ 1 ∧
  (s.holding ≠ [] → s.lock.locked = true) ∧
  (s.lock.locked = true → resolvedCount s.lock.waiters = 0) ∧
  ∀ w ∈ s.lock.waiters.tail, w.fut ≠ .resolved

theorem resolvedCount_append (a b : List Waiter) :
    resolvedCount (a ++ b) = resolvedCount a + resolvedCount b := by
  simp [resolvedCount, List.filter_append]

theorem resolvedCount_cons (w : Waiter) (l : List Waiter) :
    resolvedCount (w :: l) =
      (if w.fut = .resolved then 1 else 0) + resolvedCount l := by
  by_cases h : w.fut = .resolved <;>
    simp [resolvedCount, List.filter_cons, h, Nat.add_comm]

theorem resolvedCount_eq_zero {l : List Waiter} :
    resolvedCount l = 0 ↔ ∀ w ∈ l, w.fut ≠ .resolved := by
  simp [resolvedCount, List.length_eq_zero, List.filter_eq_nil_iff]

theorem resolvedCount_of_allCancelled {ws : List Waiter}
    (h : allCancelled ws = true) : resolvedCount ws = 0 := by
  rw [resolvedCount_eq_zero]
  intro w hw
  have := (List.all_eq_true.mp h) w hw
  simp only [decide_eq_true_eq] at this
  simp [this]

/-- `_wake_up_first` keeps the queue well formed: starting from a queue
    whose tail has no resolved entry and with at most one resolved entry
    overall, the result again has at most one resolved entry and none in
    its tail. -/
theorem wakeUpFirst_good {ws : List Waiter}
    (h : ∀ w ∈ ws.tail, w.fut ≠ .resolved) (hc : resolvedCount ws ≤ 1) :
    resolvedCount (Lock.wakeUpFirst ws) ≤ 1 ∧
      ∀ w ∈ (Lock.wakeUpFirst ws).tail, w.fut ≠ .resolved := by
  cases ws with
  | nil => simp [Lock.wakeUpFirst, resolvedCount]
  | cons w rest =>
    simp only [List.tail_cons] at h
    have hrest : resolvedCount rest = 0 := resolvedCount_eq_zero.mpr h
    by_cases hp : w.fut = .pending
    · constructor
      · simp [Lock.wakeUpFirst, hp, resolvedCount_cons, hrest]
      · simpa [Lock.wakeUpFirst, hp] using h
    · constructor
      · simpa [Lock.wakeUpFirst, hp] using hc
      · simpa [Lock.wakeUpFirst, hp] using h

theorem lockInv_init : LockInv lockInit := by
  refine ⟨by simp [lockInit, resolvedCount], by simp [lockInit], ?_, ?_⟩ <;>
    simp [lockInit, resolvedCount]

theorem lockInv_step {s s' : LockSys} (hinv : LockInv s) (st : LockStep s s') :
    LockInv s' := by
  obtain ⟨h1, h2, h3, h4⟩ := hinv
  cases st with
  | acquireFast t hl hw =>
    have hr0 : resolvedCount s.lock.waiters = 0 := resolvedCount_of_allCancelled hw
    have hh : s.holding = [] := by
      by_contra hne
      rw [h2 hne] at hl
      exact absurd hl (by simp)
    refine ⟨?_, fun _ => rfl, fun _ => hr0, h4⟩
    simp [hh, hr0]
  | acquireEnqueue t h =>
    have happ : resolvedCount (s.lock.waiters ++ [⟨t, .pending⟩]) =
        resolvedCount s.lock.waiters := by
      simp [resolvedCount_append, resolvedCount]
    refine ⟨by simpa [happ] using h1, h2, fun hl => by simpa [happ] using h3 hl, ?_⟩
    intro w hw
    rcases hws : s.lock.waiters with _ | ⟨a, rest⟩
    · rw [hws] at hw
      simp at hw
    · rw [hws] at hw h4
      simp only [List.tail_cons] at h4
      simp only [List.cons_append, List.tail_cons] at hw
      rw [List.mem_append] at hw
      rcases hw with hw | hw
      · exact h4 w hw
      · rw [List.mem_singleton] at hw
        simp [hw]
  | resumeResolved t w1 w2 h =>
    -- the resolved waiter must be the head of the queue
    have hw1 : w1 = [] := by
      cases w1 with
      | nil => rfl
      | cons a w1' =>
        exfalso
        have hmem : (⟨t, .resolved⟩ : Waiter) ∈ (s.lock.waiters).tail := by
          rw [h]; simp
        exact h4 _ hmem rfl
    subst hw1
    have h' : s.lock.waiters = ⟨t, .resolved⟩ :: w2 := by simpa using h
    have hcount : resolvedCount s.lock.waiters = 1 + resolvedCount w2 := by
      rw [h', resolvedCount_cons]; simp
    have hw2 : resolvedCount w2 = 0 := by omega
    have hw2' : ∀ w ∈ w2, w.fut ≠ .resolved := resolvedCount_eq_zero.mp hw2
    have hh : s.holding = [] := by
      have hlen := h1
      rw [hcount] at hlen
      exact List.length_eq_zero.mp (by omega)
    refine ⟨?_, fun _ => rfl, fun _ => by simpa using hw2, ?_⟩
    · simp [hh, hw2]
    · intro w hw
      exact hw2' w (List.mem_of_mem_tail hw)
  | cancelWaiter t w1 w2 h =>
    have hcount : resolvedCount (w1 ++ ⟨t, .cancelled⟩ :: w2) =
        resolvedCount s.lock.waiters := by
      rw [h, resolvedCount_append, resolvedCount_append,
        resolvedCount_cons, resolvedCount_cons]
      simp
    refine ⟨by simpa [hcount] using h1, h2, fun hl => by simpa [hcount] using h3 hl, ?_⟩
    intro w hw
    cases w1 with
    | nil =>
      simp only [List.nil_append, List.tail_cons] at hw ⊢
      exact h4 w (by rw [h]; simpa using hw)
    | cons a w1' =>
      simp only [List.cons_append, List.tail_cons] at hw
      rw [List.mem_append] at hw
      rcases hw with hw | hw
      · exact h4 w (by rw [h]; simp [List.mem_append, hw])
      · rw [List.mem_cons] at hw
        rcases hw with hw | hw
        · simp [hw]
        · exact h4 w (by rw [h]; simp [List.mem_append, hw])
  | resumeCancelled t w1 w2 h =>
    -- the removed waiter is cancelled, so it contributes no resolved entry
    have hcount : resolvedCount s.lock.waiters = resolvedCount (w1 ++ w2) := by
      rw [h, resolvedCount_append, resolvedCount_append, resolvedCount_cons]
      simp
    have htail : ∀ w ∈ (w1 ++ w2).tail, w.fut ≠ .resolved := by
      intro w hw
      cases w1 with
      | nil =>
        simp only [List.nil_append] at hw
        exact h4 w (by rw [h]; exact List.mem_of_mem_tail (by simpa using hw))
      | cons a w1' =>
        simp only [List.cons_append, List.tail_cons] at hw
        rw [List.mem_append] at hw
        rcases hw with hw | hw
        · exact h4 w (by rw [h]; simp [List.mem_append, hw])
        · exact h4 w (by rw [h]; simp [List.mem_append, hw])
    by_cases hl : s.lock.locked
    · have hz : resolvedCount (w1 ++ w2) = 0 := by
        rw [← hcount]; exact h3 hl
      refine ⟨?_, fun hne => h2 hne, fun _ => by simpa [hl] using hz, ?_⟩
      · simp only [hl, if_true]
        omega
      · simp only [hl, if_true]
        exact htail
    · have hbl : s.lock.locked = false := by simpa using hl
      have hh : s.holding = [] := by
        by_contra hne
        rw [h2 hne] at hbl
        exact absurd hbl (by simp)
      have hle : resolvedCount (w1 ++ w2) ≤ 1 := by
        rw [← hcount]; omega
      obtain ⟨hg1, hg2⟩ := wakeUpFirst_good htail hle
      refine ⟨?_, fun hne => by simp [hh] at hne, ?_, ?_⟩
      · simp only [hbl, if_false, hh]
        simpa using hg1
      · intro hcon
        simp [hbl] at hcon
      · simpa [hbl] using hg2
  | releaseStep t l' ht hr =>
    have hne : s.holding ≠ [] := by
      intro hcon; rw [hcon] at ht; exact absurd ht (by simp)
    have hl : s.lock.locked = true := h2 hne
    have hz : resolvedCount s.lock.waiters = 0 := h3 hl
    have hl' : l' = ⟨false, Lock.wakeUpFirst s.lock.waiters⟩ := by
      rw [Lock.release, if_pos hl] at hr
      exact (Except.ok.inj hr).symm
    have hht : s.holding = [t] := by
      have hlen : s.holding.length = 1 := by
        have := h1
        rcases hlen : s.holding with _ | ⟨a, rest⟩
        · rw [hlen] at hne; exact absurd rfl hne
        · rw [hlen] at this
          simp only [List.length_cons] at this ⊢
          omega
      obtain ⟨a, ha⟩ := List.length_eq_one.mp hlen
      rw [ha] at ht
      rw [List.mem_singleton] at ht
      rw [ha, ht]
    have htl : ∀ w ∈ s.lock.waiters.tail, w.fut ≠ .resolved := h4
    obtain ⟨hg1, hg2⟩ := wakeUpFirst_good htl (by omega)
    refine ⟨?_, ?_, ?_, ?_⟩
    · simp only [hht, hl', List.erase_cons_head]
      simpa using hg1
    · intro hcon
      simp [hht, hl'] at hcon ⊢
    · intro hcon
      rw [hl'] at hcon
      exact absurd hcon (by simp)
    · simpa [hl'] using hg2

theorem lockReach_inv {s : LockSys} (h : LockReach s) : LockInv s := by
  induction h with
  | init => exact lockInv_init
  | step _ hst ih => exact lockInv_step ih hst

/-- C1: for every sequence of interleaved acquire/release operations on a
    Lock (tasks interleaving only at suspension points), at most one task
    is between a successful acquire and its release — and any such task
    observes `locked() == true` — and calling `release()` on an unlocked
    Lock always fails with the lock-state error. -/
theorem lock_mutual_exclusion :
    (∀ s : LockSys, LockReach s →
        s.holding.length ≤ 1 ∧ (s.holding ≠ [] → s.lock.locked = true)) ∧
    (∀ l : Lock, l.locked = false → Lock.release l = .error .lockStateError) := by
  constructor
  · intro s hs
    obtain ⟨h1, h2, _, _⟩ := lockReach_inv hs
    exact ⟨by omega, h2⟩
  · intro l hl
    rw [Lock.release, if_neg (by simp [hl])]

/-- Witness for C1 at concrete inputs: the freshly constructed lock system
    and a concrete unlocked lock with a pending waiter. -/
theorem lock_mutual_exclusion_witness :
    (lockInit.holding.length ≤ 1 ∧
      (lockInit.holding ≠ [] → lockInit.lock.locked = true)) ∧
    Lock.release ⟨false, [⟨7, .pending⟩]⟩ = .error .lockStateError :=
  ⟨lock_mutual_exclusion.1 lockInit LockReach.init,
   lock_mutual_exclusion.2 ⟨false, [⟨7, .pending⟩]⟩ rfl⟩

/-- Modelled from the spec's words for C3, for comparison with the code:
    resolve exactly the first queued signal that is not yet resolved. -/
def specResolveFirstUnresolved : List Waiter → List Waiter
  | [] => []
  | w :: ws =>
    if w.fut ≠ .resolved then { w with fut := .resolved } :: ws
    else w :: specResolveFirstUnresolved ws

/-- C3 counterexample: on the (reachable) locked state whose waiter queue
    is `[cancelled, pending]`, `release()` resolves nothing at all — the
    head is done so `_wake_up_first` returns without waking anyone — while
    the claim demands that exactly the first not-yet-resolved queued
    signal be resolved. -/
theorem lock_release_first_unresolved_cex :
    Lock.release ⟨true, [⟨2, .cancelled⟩, ⟨3, .pending⟩]⟩ =
      .ok ⟨false, [⟨2, .cancelled⟩, ⟨3, .pending⟩]⟩ ∧
    resolvedCount (Lock.wakeUpFirst [⟨2, .cancelled⟩, ⟨3, .pending⟩]) = 0 ∧
    Lock.wakeUpFirst [⟨2, .cancelled⟩, ⟨3, .pending⟩] ≠
      specResolveFirstUnresolved [⟨2, .cancelled⟩, ⟨3, .pending⟩] := by
  exact ⟨rfl, by decide, by decide⟩

/-- C3 amended: for every Lock state with `locked == true`, `release()`
    clears `locked` and resolves the head waiter only when the head's
    signal is pending (neither resolved nor cancelled); otherwise —
    including the empty queue — it resolves nothing and leaves the queue
    unchanged. -/
theorem lock_release_wakes_pending_head (l : Lock) (h : l.locked = true) :
    ∃ l', Lock.release l = .ok l' ∧ l'.locked = false ∧
      (l.waiters = [] → l'.waiters = []) ∧
      (∀ w ws, l.waiters = w :: ws → w.fut = .pending →
        l'.waiters = ⟨w.task, .resolved⟩ :: ws) ∧
      (∀ w ws, l.waiters = w :: ws → w.fut ≠ .pending → l'.waiters = w :: ws) := by
  refine ⟨⟨false, Lock.wakeUpFirst l.waiters⟩, ?_, rfl, ?_, ?_, ?_⟩
  · rw [Lock.release, if_pos h]
  · intro hnil; simp [hnil, Lock.wakeUpFirst]
  · intro w ws hcons hp
    simp [hcons, Lock.wakeUpFirst, hp]
  · intro w ws hcons hp
    simp [hcons, Lock.wakeUpFirst, hp]

/-- Witness for the amended C3 on a concrete locked lock with a pending
    head waiter. -/
theorem lock_release_wakes_pending_head_witness :
    ∃ l', Lock.release ⟨true, [⟨4, .pending⟩]⟩ = .ok l' ∧ l'.locked = false ∧
      (([⟨4, .pending⟩] : List Waiter) = [] → l'.waiters = []) ∧
      (∀ w ws, ([⟨4, .pending⟩] : List Waiter) = w :: ws → w.fut = .pending →
        l'.waiters = ⟨w.task, .resolved⟩ :: ws) ∧
      (∀ w ws, ([⟨4, .pending⟩] : List Waiter) = w :: ws → w.fut ≠ .pending →
        l'.waiters = w :: ws) :=
  lock_release_wakes_pending_head ⟨true, [⟨4, .pending⟩]⟩ rfl

/-- `Semaphore._wake_up_next`: pop waiters from the front, discarding done
    ones, until a not-done waiter is found; resolve that one (it leaves
    the queue with the task that owns it).  Returns the remaining queue
    and the task that was woken, if any. -/
def Sem.wakeUpNext : List Waiter → List Waiter × Option Nat
  | [] => ([], none)
  | w :: ws => if w.fut.done then Sem.wakeUpNext ws else (ws, some w.task)

/-- The `except:` handler of `Semaphore.acquire`, run when awaiting the
    queued future `⟨t, f⟩` (still in the queue, between `w1` and `w2`)
    raises: `fut.cancel()`, then, if `self._value > 0 and not
    fut.cancelled()`, `self._wake_up_next()`; afterwards the exception is
    re-raised.  Returns the new queue and the task woken by forwarding. -/
def Sem.acquireCancelled (value : Nat) (w1 : List Waiter) (t : Nat)
    (f : FutState) (w2 : List Waiter) : List Waiter × Option Nat :=
  let f' := f.cancel
  let ws := w1 ++ ⟨t, f'⟩ :: w2
  if 0 < value ∧ ¬(f' = .cancelled) then Sem.wakeUpNext ws
  else (ws, none)

theorem futCancel_ne_cancelled (f : FutState) :
    ¬(f.cancel = .cancelled) ↔ f = .resolved := by
  cases f <;> simp [FutState.cancel]

/-- C2 counterexample: `value = 1`, the cancelled waiter's signal (task 5)
    was still pending — NOT resolved — before the cancellation, and a
    further waiter (task 7) is queued behind it.  The claim demands that
    the wakeup be forwarded to task 7; the code forwards nothing: it
    forwards only when the cancelled waiter's signal WAS already resolved
    (i.e. `fut.cancel()` did not succeed). -/
theorem sem_cancel_forward_cex :
    Sem.acquireCancelled 1 [] 5 .pending [⟨7, .pending⟩] =
      ([⟨5, .cancelled⟩, ⟨7, .pending⟩], none) := by
  decide

/-- C2 amended: on cancellation of a suspended Semaphore acquire, the
    wakeup is forwarded exactly when `value > 0` and the waiter's signal
    WAS actually resolved before the cancellation; forwarding pops done
    signals and resolves the first not-done queued signal, and nothing is
    woken when the condition fails or when every queued signal is done. -/
theorem sem_cancel_forwarding :
    (∀ (value : Nat) (w1 : List Waiter) (t : Nat) (w2 : List Waiter) (f : FutState),
        ¬(0 < value ∧ f = .resolved) →
        Sem.acquireCancelled value w1 t f w2 = (w1 ++ ⟨t, f.cancel⟩ :: w2, none)) ∧
    (∀ (value : Nat) (w1 : List Waiter) (t : Nat) (w2 : List Waiter),
        0 < value →
        Sem.acquireCancelled value w1 t .resolved w2 =
          Sem.wakeUpNext (w1 ++ ⟨t, .resolved⟩ :: w2)) ∧
    (∀ (ds : List Waiter) (w : Waiter) (rest : List Waiter),
        (∀ x ∈ ds, x.fut.done = true) → w.fut.done = false →
        Sem.wakeUpNext (ds ++ w :: rest) = (rest, some w.task)) ∧
    (∀ ws : List Waiter, (∀ x ∈ ws, x.fut.done = true) →
        Sem.wakeUpNext ws = ([], none)) := by
  refine ⟨?_, ?_, ?_, ?_⟩
  · intro value w1 t w2 f hne
    rw [Sem.acquireCancelled]
    rw [if_neg]
    intro ⟨hv, hc⟩
    exact hne ⟨hv, (futCancel_ne_cancelled f).mp hc⟩
  · intro value w1 t w2 hv
    rw [Sem.acquireCancelled]
    rw [if_pos ⟨hv, by simp [FutState.cancel]⟩]
    rfl
  · intro ds w rest hds hw
    induction ds with
    | nil => simp [Sem.wakeUpNext, hw]
    | cons d ds ih =>
      have hd : d.fut.done = true := hds d (by simp)
      simp only [List.cons_append, Sem.wakeUpNext, hd, if_true]
      exact ih (fun x hx => hds x (by simp [hx]))
  · intro ws hall
    induction ws with
    | nil => rfl
    | cons w ws ih =>
      have hw : w.fut.done = true := hall w (by simp)
      simp only [Sem.wakeUpNext, hw, if_true]
      exact ih (fun x hx => hall x (by simp [hx]))

/-- Witness for the amended C2 at concrete inputs. -/
theorem sem_cancel_forwarding_witness :
    Sem.acquireCancelled 0 [] 1 .pending [] = ([⟨1, .cancelled⟩], none) ∧
    Sem.acquireCancelled 1 [] 2 .resolved [⟨3, .pending⟩] =
      Sem.wakeUpNext [⟨2, .resolved⟩, ⟨3, .pending⟩] ∧
    Sem.wakeUpNext [⟨4, .resolved⟩, ⟨5, .pending⟩] = ([], some 5) ∧
    Sem.wakeUpNext [⟨6, .cancelled⟩] = ([], none) :=
  ⟨sem_cancel_forwarding.1 0 [] 1 [] .pending (by decide),
   sem_cancel_forwarding.2.1 1 [] 2 [⟨3, .pending⟩] (by decide),
   sem_cancel_forwarding.2.2.1 [⟨4, .resolved⟩] ⟨5, .pending⟩ []
     (by decide) (by decide),
   sem_cancel_forwarding.2.2.2 [⟨6, .cancelled⟩] (by decide)⟩

/-- Error raised by `BoundedSemaphore.release` when the counter is already
    at its bound (`ValueError('BoundedSemaphore released too many
    times')`, the spec's BoundCapacityError). -/
inductive SemErr where
  | boundCapacityError
deriving DecidableEq

/-- `BoundedSemaphore`: the counter `_value`, the immutable
    `_bound_value`, and the waiter queue `_waiters`. -/
structure BSem where
  value : Nat
  bound : Nat
  waiters : List Waiter
deriving DecidableEq

/-- `BoundedSemaphore.release`: raise when `self._value >=
    self._bound_value`; otherwise `Semaphore.release`: increment the
    counter, then `_wake_up_next`. -/
def BSem.release (s : BSem) : Except SemErr BSem :=
  if s.bound ≤ s.value then .error .boundCapacityError
  else .ok { s with value := s.value + 1, waiters := (Sem.wakeUpNext s.waiters).1 }

/-- A BoundedSemaphore constructed with initial value `k`
    (`_bound_value = value = k`). -/
def bsemInit (k : Nat) : BSem := ⟨k, k, []⟩

/-- Atomic steps of the bounded-semaphore system, one per block of
    `Semaphore.acquire` / `BoundedSemaphore.release` between suspension
    points: the decrement at the end of a successful `acquire` (only
    runs when `value > 0`), enqueueing a fresh pending waiter (only when
    `value` is 0), a successful `release`, and the cancellation handler
    of a queued waiter. -/
inductive BSemStep : BSem → BSem → Prop where
  | acquireFast (s : BSem) (h : 0 < s.value) :
      BSemStep s { s with value := s.value - 1 }
  | enqueue (s : BSem) (t : Nat) (h : s.value = 0) :
      BSemStep s { s with waiters := s.waiters ++ [⟨t, .pending⟩] }
  | releaseOk (s s' : BSem) (h : BSem.release s = .ok s') : BSemStep s s'
  | cancelHandler (s : BSem) (t : Nat) (f : FutState) (w1 w2 : List Waiter)
      (h : s.waiters = w1 ++ ⟨t, f⟩ :: w2) :
      BSemStep s { s with waiters := (Sem.acquireCancelled s.value w1 t f w2).1 }

/-- States reachable from a BoundedSemaphore seeded with `k`. -/
inductive BSemReach (k : Nat) : BSem → Prop where
  | init : BSemReach k (bsemInit k)
  | step {s s' : BSem} : BSemReach k s → BSemStep s s' → BSemReach k s'

theorem bsemInv_step {s s' : BSem} (h1 : s.value ≤ s.bound)
    (hst : BSemStep s s') : s'.value ≤ s'.bound ∧ s'.bound = s.bound := by
  cases hst with
  | acquireFast h => exact ⟨by dsimp; omega, rfl⟩
  | enqueue t h => exact ⟨h1, rfl⟩
  | releaseOk s2 h =>
    simp only [BSem.release] at h
    by_cases hb : s.bound ≤ s.value
    · rw [if_pos hb] at h
      exact absurd h (by simp)
    · rw [if_neg hb] at h
      have he := Except.ok.inj h
      rw [← he]
      exact ⟨by dsimp; omega, rfl⟩
  | cancelHandler t f w1 w2 h => exact ⟨h1, rfl⟩

/-- C5: for every BoundedSemaphore constructed with initial value `k`, the
    invariant `value ≤ bound` (with `bound = k`) holds after every
    operation, and `release()` with `value ≥ bound` fails with the
    bound-capacity error before incrementing, leaving the state
    unchanged. -/
theorem bsem_bound_invariant :
    (∀ (k : Nat) (s : BSem), BSemReach k s → s.value ≤ s.bound ∧ s.bound = k) ∧
    (∀ s : BSem, s.bound ≤ s.value →
        BSem.release s = .error .boundCapacityError) := by
  constructor
  · intro k s h
    induction h with
    | init => exact ⟨le_refl k, rfl⟩
    | step _ hst ih =>
      obtain ⟨ih1, ih2⟩ := ih
      obtain ⟨g1, g2⟩ := bsemInv_step ih1 hst
      exact ⟨g1, g2.trans ih2⟩
  · intro s hb
    simp only [BSem.release, if_pos hb]

/-- Witness for C5: the fresh semaphore seeded with 3, and a concrete
    semaphore whose counter has reached its bound. -/
theorem bsem_bound_invariant_witness :
    ((bsemInit 3).value ≤ (bsemInit 3).bound ∧ (bsemInit 3).bound = 3) ∧
    BSem.release ⟨2, 2, []⟩ = .error .boundCapacityError :=
  ⟨bsem_bound_invariant.1 3 (bsemInit 3) BSemReach.init,
   bsem_bound_invariant.2 ⟨2, 2, []⟩ (by decide)⟩

/-- Error raised to barrier waiters on reset/broken states
    (`BrokenBarrierError`, the spec's BrokenBarrierCondition). -/
inductive BarrierErr where
  | brokenBarrier
deriving DecidableEq

/-- The fields of `asyncio.locks.Barrier`: immutable `_parties`, the
    `_state` code (0 filling, 1 draining, -1 resetting, -2 broken), the
    `_count` of tasks currently inside `wait()`, and the flags of the two
    internal Events `_waiting` and `_blocking`. -/
structure Barrier where
  parties : Nat
  state : Int
  count : Nat
  waitingSet : Bool
  blockingSet : Bool
deriving DecidableEq

/-- The re-check performed in `Barrier._wait` after the `_waiting` event
    wakes a blocked waiter: raise `BrokenBarrierError` when the state is
    negative (resetting or broken), else return normally. -/
def Barrier.waitCheck (st : Int) : Except BarrierErr Unit :=
  if st < 0 then .error .brokenBarrier else .ok ()

/-- `Barrier.reset`: with tasks inside (`count > 0`), filling/draining and
    broken states move to resetting (-1), `_waiting` is set and
    `_blocking` cleared so every blocked waiter wakes; with no tasks
    inside the state just returns to filling. -/
def Barrier.reset (b : Barrier) : Barrier :=
  if 0 < b.count then
    { b with
      state := if b.state = 0 ∨ b.state = 1 then -1
               else if b.state = -2 then -1 else b.state,
      waitingSet := true, blockingSet := false }
  else { b with state := 0 }

/-- One reset/abort/cancellation-free barrier cycle, instrumented: the
    barrier fields together with the captured indices of the tasks
    suspended in `_wait` (in arrival order), the indices already returned
    by released `wait()` calls, and how many `wait()` calls entered. -/
structure BarSys where
  bar : Barrier
  blocked : List Nat
  returned : List Nat
  arrivals : Nat
deriving DecidableEq

/-- A freshly constructed `Barrier(n)`: filling, no tasks inside,
    both internal events unset. -/
def barInit (n : Nat) : BarSys := ⟨⟨n, 0, 0, false, false⟩, [], [], 0⟩

/-- Atomic steps of one cancellation-free barrier cycle, one per block of
    `Barrier.wait` between suspension points:
    * `arriveWait`: a non-final arrival passes `_block` (state is
      filling), captures `index = count`, increments `count` and suspends
      on the `_waiting` event;
    * `arriveLast`: the final arrival (`index + 1 == parties`) runs
      `_release` (draining state, `_blocking` cleared, `_waiting` set),
      then its `finally` decrements `count` and runs `_exit`, and the
      call returns `index`;
    * `wake`: a waiter woken by the `_waiting` event passes the state
      re-check (draining, not negative), returns its index, and its
      `finally` decrements `count` and runs `_exit` (the last one out
      returns the barrier to filling). -/
inductive BarStep : BarSys → BarSys → Prop where
  | arriveWait (s : BarSys)
      (h0 : s.bar.state = 0) (hret : s.returned = [])
      (hlt : s.bar.count + 1 ≠ s.bar.parties) :
      BarStep s ⟨{ s.bar with count := s.bar.count + 1 },
        s.blocked ++ [s.bar.count], s.returned, s.arrivals + 1⟩
  | arriveLast (s : BarSys)
      (h0 : s.bar.state = 0) (hret : s.returned = [])
      (heq : s.bar.count + 1 = s.bar.parties) :
      BarStep s ⟨(if s.bar.count = 0 then
          { s.bar with state := 0, waitingSet := false, blockingSet := true }
        else { s.bar with state := 1, waitingSet := true, blockingSet := false }),
        s.blocked, s.bar.count :: s.returned, s.arrivals + 1⟩
  | wake (s : BarSys) (i : Nat) (b1 b2 : List Nat)
      (h1 : s.bar.state = 1) (hw : s.bar.waitingSet = true)
      (hb : s.blocked = b1 ++ i :: b2) :
      BarStep s ⟨(if s.bar.count - 1 = 0 then
          { s.bar with
            count := s.bar.count - 1, state := 0,
            waitingSet := false, blockingSet := true }
        else { s.bar with count := s.bar.count - 1 }),
        b1 ++ b2, i :: s.returned, s.arrivals⟩

/-- States reachable during one cycle of a `Barrier(n)` (construction
    requires `parties ≥ 1`, else `ValueError`). -/
inductive BarReach (n : Nat) : BarSys → Prop where
  | init (h : 0 < n) : BarReach n (barInit n)
  | step {s s' : BarSys} : BarReach n s → BarStep s s' → BarReach n s'

/-- Inductive invariant of one barrier cycle: `count` counts the blocked
    tasks, the state is filling or draining, the `_waiting` event is set
    exactly while draining, nothing is released while filling (except in
    the finished-cycle configuration), draining means all `n` arrivals
    happened, and the returned and still-blocked indices together are a
    permutation of the indices handed out so far. -/
def BarInv (n : Nat) (s : BarSys) : Prop :=
  0 < n ∧
  s.bar.parties = n ∧
  s.bar.count = s.blocked.length ∧
  (s.bar.state = 0 ∨ s.bar.state = 1) ∧
  (s.bar.waitingSet = true ↔ s.bar.state = 1) ∧
  (s.bar.state = 0 →
    (s.returned = [] ∧ s.arrivals = s.bar.count ∧ s.arrivals < n) ∨
    (s.arrivals = n ∧ s.blocked = [] ∧ s.bar.count = 0)) ∧
  (s.bar.state = 1 → s.arrivals = n) ∧
  (s.returned ++ s.blocked).Perm (List.range s.arrivals)

theorem barInv_init {n : Nat} (h : 0 < n) : BarInv n (barInit n) := by
  refine ⟨h, rfl, rfl, Or.inl rfl, by simp [barInit], ?_, ?_, by simp [barInit]⟩
  · intro _
    exact Or.inl ⟨rfl, rfl, h⟩
  · intro hcon
    simp [barInit] at hcon

theorem barInv_step {n : Nat} {s s' : BarSys} (hinv : BarInv n s)
    (hst : BarStep s s') : BarInv n s' := by
  obtain ⟨hn, hp, hcnt, hst01, hwait, h0, h1, hperm⟩ := hinv
  cases hst with
  | arriveWait h0s hret hlt =>
    have hd : s.returned = [] ∧ s.arrivals = s.bar.count ∧ s.arrivals < n := by
      rcases h0 h0s with hd | ⟨ha, hb, _⟩
      · exact hd
      · exfalso
        rw [hret, hb] at hperm
        have hnil : List.range s.arrivals = [] := hperm.symm.eq_nil
        rw [List.range_eq_nil] at hnil
        omega
    obtain ⟨hd1, hd2, hd3⟩ := hd
    refine ⟨hn, hp, ?_, Or.inl h0s, hwait, ?_, ?_, ?_⟩
    · simp [hcnt]
    · intro _
      refine Or.inl ⟨hd1, by dsimp; omega, ?_⟩
      dsimp
      rw [hp] at hlt
      omega
    · intro hcon
      dsimp at hcon
      omega
    · dsimp
      have hrs : List.range (s.arrivals + 1) =
          List.range s.arrivals ++ [s.arrivals] := List.range_succ s.arrivals
      have hperm' : s.blocked.Perm (List.range s.arrivals) := by
        rw [hd1, List.nil_append] at hperm
        exact hperm
      rw [hrs, hd1, List.nil_append, hd2]
      rw [hd2] at hperm'
      exact hperm'.append (List.Perm.refl _)
  | arriveLast h0s hret heq =>
    have hd : s.returned = [] ∧ s.arrivals = s.bar.count ∧ s.arrivals < n := by
      rcases h0 h0s with hd | ⟨ha, hb, _⟩
      · exact hd
      · exfalso
        rw [hret, hb] at hperm
        have hnil : List.range s.arrivals = [] := hperm.symm.eq_nil
        rw [List.range_eq_nil] at hnil
        omega
    obtain ⟨hd1, hd2, hd3⟩ := hd
    have hperm' : s.blocked.Perm (List.range s.arrivals) := by
      rw [hd1, List.nil_append] at hperm
      exact hperm
    by_cases hzero : s.bar.count = 0
    · have hn1 : n = 1 := by rw [hp] at heq; omega
      have hbl : s.blocked = [] := by
        have := hcnt
        rw [hzero] at this
        exact (List.length_eq_zero.mp this.symm)
      refine ⟨hn, ?_, ?_, ?_, ?_, ?_, ?_, ?_⟩
      · simp [hzero, hp]
      · simp [hzero, hbl]
      · simp [hzero]
      · simp [hzero]
      · intro _
        refine Or.inr ⟨?_, by simp [hzero, hbl], by simp [hzero]⟩
        dsimp
        omega
      · intro hcon
        simp [hzero] at hcon
      · dsimp
        have ha0 : s.arrivals = 0 := by omega
        rw [hret, hbl, hzero, ha0]
        decide
    · refine ⟨hn, ?_, ?_, ?_, ?_, ?_, ?_, ?_⟩
      · simp [hzero, hp]
      · rw [if_neg hzero]
        exact hcnt
      · simp [hzero]
      · simp [hzero]
      · intro hcon
        simp [hzero] at hcon
      · intro _
        dsimp
        rw [hp] at heq
        omega
      · dsimp
        rw [hret]
        have hmid : (s.bar.count :: ([] ++ s.blocked)).Perm
            (s.blocked ++ [s.bar.count]) := by
          simpa using (List.perm_append_singleton s.bar.count s.blocked).symm
        refine hmid.trans ?_
        have hrs : List.range (s.arrivals + 1) =
            List.range s.arrivals ++ [s.arrivals] := List.range_succ s.arrivals
        rw [hrs, ← hd2]
        exact hperm'.append (List.Perm.refl _)
  | wake i b1 b2 h1s hw hb =>
    have harr : s.arrivals = n := h1 h1s
    have hlen : s.bar.count = b1.length + 1 + b2.length := by
      rw [hcnt, hb]
      simp
      omega
    have hperm2 : ((i :: s.returned) ++ (b1 ++ b2)).Perm
        (List.range s.arrivals) := by
      refine List.Perm.trans ?_ hperm
      rw [hb]
      have hm : (s.returned ++ b1 ++ i :: b2).Perm
          (i :: (s.returned ++ b1 ++ b2)) := List.perm_middle
      have : ((i :: s.returned) ++ (b1 ++ b2)) =
          i :: (s.returned ++ b1 ++ b2) := by simp
      rw [this, ← List.append_assoc]
      exact hm.symm
    by_cases hone : s.bar.count - 1 = 0
    · have hb1 : b1 = [] ∧ b2 = [] := by
        constructor <;> (apply List.length_eq_zero.mp; omega)
      obtain ⟨hb1e, hb2e⟩ := hb1
      refine ⟨hn, ?_, ?_, ?_, ?_, ?_, ?_, ?_⟩
      · simp [hone, hp]
      · simp [hone, hb1e, hb2e]
      · simp [hone]
      · simp [hone]
      · intro _
        exact Or.inr ⟨harr, by simp [hb1e, hb2e], by simp [hone]⟩
      · intro hcon
        simp [hone] at hcon
      · dsimp
        rw [harr] at hperm2 ⊢
        exact hperm2
    · refine ⟨hn, ?_, ?_, ?_, ?_, ?_, ?_, ?_⟩
      · simp [hone, hp]
      · simp [hone]
        omega
      · simp [hone, h1s]
      · simp [hone, hw, h1s]
      · intro hcon
        simp [hone, h1s] at hcon
      · intro _
        exact harr
      · dsimp
        exact hperm2

theorem barReach_inv {n : Nat} {s : BarSys} (h : BarReach n s) : BarInv n s := by
  induction h with
  | init h => exact barInv_init h
  | step _ hst ih => exact barInv_step ih hst

/-- The successor state of a single wake of the head blocked waiter
    (the `wake` step with `b1 = []`). -/
def wakeNext (s : BarSys) (i : Nat) (rest : List Nat) : BarSys :=
  ⟨(if s.bar.count - 1 = 0 then
      { s.bar with
        count := s.bar.count - 1, state := 0,
        waitingSet := false, blockingSet := true }
    else { s.bar with count := s.bar.count - 1 }),
    rest, i :: s.returned, s.arrivals⟩

/-- Draining a barrier: repeatedly wake the head of the blocked queue
    until nobody is blocked (at most `fuel` wakes). -/
def drainAll : Nat → BarSys → BarSys
  | 0, s => s
  | fuel + 1, s =>
    match s.blocked with
    | [] => s
    | i :: rest => drainAll fuel (wakeNext s i rest)

theorem drainAll_nil {fuel : Nat} {s : BarSys} (h : s.blocked = []) :
    drainAll (fuel + 1) s = s := by
  rcases s with ⟨bar, bl, ret, arr⟩
  dsimp at h
  subst h
  rfl

theorem drainAll_cons {fuel : Nat} {s : BarSys} {i : Nat} {rest : List Nat}
    (h : s.blocked = i :: rest) :
    drainAll (fuel + 1) s = drainAll fuel (wakeNext s i rest) := by
  rcases s with ⟨bar, bl, ret, arr⟩
  dsimp at h
  subst h
  rfl

theorem bar_drain {n : Nat} :
    ∀ (fuel : Nat) (s : BarSys), BarInv n s →
      (s.blocked = [] ∨ s.bar.state = 1) → s.blocked.length ≤ fuel →
      Relation.ReflTransGen BarStep s (drainAll fuel s) ∧
        (drainAll fuel s).blocked = [] ∧ BarInv n (drainAll fuel s) ∧
        (drainAll fuel s).arrivals = s.arrivals := by
  intro fuel
  induction fuel with
  | zero =>
    intro s hinv _ hlen
    have hbl : s.blocked = [] := List.length_eq_zero.mp (by omega)
    exact ⟨Relation.ReflTransGen.refl, by simpa [drainAll] using hbl,
      by simpa [drainAll] using hinv, rfl⟩
  | succ fuel ih =>
    intro s hinv hcase hlen
    rcases hbl : s.blocked with _ | ⟨i, rest⟩
    · rw [drainAll_nil hbl]
      exact ⟨Relation.ReflTransGen.refl, hbl, hinv, rfl⟩
    · have hstate : s.bar.state = 1 := by
        rcases hcase with hc | hc
        · rw [hbl] at hc; exact absurd hc (by simp)
        · exact hc
      have hwset : s.bar.waitingSet = true :=
        hinv.2.2.2.2.1.mpr hstate
      have hstep2 : BarStep s (wakeNext s i rest) := by
        have hstep := BarStep.wake s i [] rest hstate hwset (by simpa using hbl)
        simpa [wakeNext] using hstep
      have hinv2 : BarInv n (wakeNext s i rest) := barInv_step hinv hstep2
      have hcnt : s.bar.count = rest.length + 1 := by
        have := hinv.2.2.1
        rw [hbl] at this
        simpa using this
      have hcase2 : (wakeNext s i rest).blocked = [] ∨
          (wakeNext s i rest).bar.state = 1 := by
        by_cases hone : s.bar.count - 1 = 0
        · left
          have : rest.length = 0 := by omega
          exact List.length_eq_zero.mp this
        · right
          simp [wakeNext, hone, hstate]
      have hlen2 : (wakeNext s i rest).blocked.length ≤ fuel := by
        have : (wakeNext s i rest).blocked = rest := rfl
        rw [this]
        rw [hbl] at hlen
        simpa using Nat.le_of_succ_le_succ (by simpa using hlen)
      obtain ⟨g1, g2, g3, g4⟩ := ih (wakeNext s i rest) hinv2 hcase2 hlen2
      rw [drainAll_cons hbl]
      refine ⟨Relation.ReflTransGen.head hstep2 g1, g2, g3, by rw [g4]; rfl⟩

/-- C7: for a Barrier of `parties = n`, (i) no `wait()` call returns
    before the n-th arrival, (ii) the indices of the released and still
    blocked calls always form a permutation of the handed-out indices
    `[0, arrivals)`, so (iii) when the cycle completes the returned
    indices are a permutation of `[0, n)`, (iv) once the n-th arrival has
    tripped the barrier every blocked waiter can be released, yielding a
    permutation of `[0, n)`; and (v) `reset()` while `count > 0` puts the
    barrier in a negative (resetting) state with the `_waiting` event set,
    so every currently blocked waiter's wake-up check fails with
    `BrokenBarrierError`. -/
theorem barrier_exact_parties_and_reset :
    (∀ (n : Nat) (s : BarSys), BarReach n s → s.arrivals < n → s.returned = []) ∧
    (∀ (n : Nat) (s : BarSys), BarReach n s →
        (s.returned ++ s.blocked).Perm (List.range s.arrivals)) ∧
    (∀ (n : Nat) (s : BarSys), BarReach n s → s.blocked = [] → s.arrivals = n →
        s.returned.Perm (List.range n)) ∧
    (∀ (n : Nat) (s : BarSys), BarReach n s → s.bar.state = 1 →
        ∃ s', Relation.ReflTransGen BarStep s s' ∧ s'.blocked = [] ∧
          s'.returned.Perm (List.range n)) ∧
    (∀ b : Barrier, 0 < b.count →
        (b.state = 0 ∨ b.state = 1 ∨ b.state = -1 ∨ b.state = -2) →
        (Barrier.reset b).state < 0 ∧ (Barrier.reset b).waitingSet = true ∧
        Barrier.waitCheck (Barrier.reset b).state = .error .brokenBarrier) := by
  refine ⟨?_, ?_, ?_, ?_, ?_⟩
  · intro n s hs hlt
    obtain ⟨hn, hp, hcnt, hst01, hwait, h0, h1, hperm⟩ := barReach_inv hs
    rcases hst01 with hst | hst
    · rcases h0 hst with hd | hd
      · exact hd.1
      · omega
    · have := h1 hst
      omega
  · intro n s hs
    exact (barReach_inv hs).2.2.2.2.2.2.2
  · intro n s hs hbl harr
    have hperm := (barReach_inv hs).2.2.2.2.2.2.2
    rw [hbl, harr] at hperm
    simpa using hperm
  · intro n s hs hstate
    have hinv := barReach_inv hs
    obtain ⟨g1, g2, g3, g4⟩ :=
      bar_drain s.blocked.length s hinv (Or.inr hstate) (le_refl _)
    refine ⟨drainAll s.blocked.length s, g1, g2, ?_⟩
    have hperm := g3.2.2.2.2.2.2.2
    have harr : (drainAll s.blocked.length s).arrivals = n := by
      rw [g4]
      exact hinv.2.2.2.2.2.2.1 hstate
    rw [g2, harr] at hperm
    simpa using hperm
  · intro b hc hst
    have hstate : (Barrier.reset b).state = -1 := by
      rcases hst with h | h | h | h <;>
        simp [Barrier.reset, hc, h]
    refine ⟨by rw [hstate]; norm_num, ?_, ?_⟩
    · simp [Barrier.reset, hc]
    · rw [Barrier.waitCheck, if_pos (by rw [hstate]; norm_num)]

/-- Witness for C7 with `parties = 2`: the concrete cycle
    arrive(index 0) → final arrive(index 1) → wake(index 0), plus a
    concrete reset on a barrier holding one blocked task. -/
theorem barrier_exact_parties_and_reset_witness :
    (⟨⟨2, 0, 1, false, false⟩, [0], [], 1⟩ : BarSys).returned = [] ∧
    ((⟨⟨2, 0, 0, false, true⟩, [], [0, 1], 2⟩ : BarSys).returned ++
      (⟨⟨2, 0, 0, false, true⟩, [], [0, 1], 2⟩ : BarSys).blocked).Perm
        (List.range 2) ∧
    ([0, 1] : List Nat).Perm (List.range 2) ∧
    (∃ s', Relation.ReflTransGen BarStep
        (⟨⟨2, 1, 1, true, false⟩, [0], [1], 2⟩ : BarSys) s' ∧
      s'.blocked = [] ∧ s'.returned.Perm (List.range 2)) ∧
    ((Barrier.reset ⟨2, 0, 1, false, false⟩).state < 0 ∧
      (Barrier.reset ⟨2, 0, 1, false, false⟩).waitingSet = true ∧
      Barrier.waitCheck (Barrier.reset ⟨2, 0, 1, false, false⟩).state =
        .error .brokenBarrier) := by
  have r0 : BarReach 2 (barInit 2) := BarReach.init (by norm_num)
  have r1 : BarReach 2 (⟨⟨2, 0, 1, false, false⟩, [0], [], 1⟩ : BarSys) := by
    have hstep := BarStep.arriveWait (barInit 2) rfl rfl (by decide)
    exact BarReach.step r0 (by simpa [barInit] using hstep)
  have r2 : BarReach 2 (⟨⟨2, 1, 1, true, false⟩, [0], [1], 2⟩ : BarSys) := by
    have hstep := BarStep.arriveLast
      (⟨⟨2, 0, 1, false, false⟩, [0], [], 1⟩ : BarSys) rfl rfl rfl
    exact BarReach.step r1 (by simpa using hstep)
  have r3 : BarReach 2 (⟨⟨2, 0, 0, false, true⟩, [], [0, 1], 2⟩ : BarSys) := by
    have hstep := BarStep.wake
      (⟨⟨2, 1, 1, true, false⟩, [0], [1], 2⟩ : BarSys) 0 [] [] rfl rfl rfl
    exact BarReach.step r2 (by simpa using hstep)
  exact ⟨barrier_exact_parties_and_reset.1 2 _ r1 (by norm_num),
    barrier_exact_parties_and_reset.2.1 2 _ r3,
    barrier_exact_parties_and_reset.2.2.1 2 _ r3 rfl rfl,
    barrier_exact_parties_and_reset.2.2.2.1 2 _ r2 rfl,
    barrier_exact_parties_and_reset.2.2.2.2 ⟨2, 0, 1, false, false⟩
      (by norm_num) (Or.inl rfl)⟩

/-- Errors of the stream buffer engine: `LimitOverrunError` with its two
    message variants ("Separator is not found, and chunk exceed the
    limit" vs "Separator is found, but chunk is longer than limit",
    distinguished here by `found`) and the `consumed` count — the spec's
    LimitExceeded; `IncompleteReadError(partial, expected)` — the spec's
    IncompleteRead; and the `ValueError` for an empty separator. -/
inductive StreamErr where
  | limitOverrun (found : Bool) (consumed : Nat)
  | incompleteRead (partBytes : List Nat) (expected : Option Nat)
  | invalidSeparator
deriving DecidableEq

/-- An event delivered to the stream while a read waits in
    `_wait_for_data`: a `feed_data(d)` call or `feed_eof()`. -/
inductive Feed where
  | data (d : List Nat)
  | eof
deriving DecidableEq

/-- Result of a read call: success with the returned bytes and the
    remaining buffer, failure with the remaining buffer, or suspended
    with no further event ever arriving. -/
inductive ReadRes where
  | ok (chunk : List Nat) (buffer : List Nat)
  | err (e : StreamErr) (buffer : List Nat)
  | blocked
deriving DecidableEq

/-- `bytearray.find(separator, offset)`: the least index `i ≥ offset` at
    which the whole separator occurs in `buf` (`none` when absent). -/
def bfind (buf sep : List Nat) (offset : Nat) : Option Nat :=
  (List.range (buf.length + 1)).find? (fun i =>
    decide (offset ≤ i) && decide (i + sep.length ≤ buf.length) &&
      decide ((buf.drop i).take sep.length = sep))

/-- Outcome of one buffer inspection of a read loop before any waiting:
    either the call finishes with a result, or it must wait for data,
    continuing with the given already-scanned offset. -/
inductive IterRes where
  | done (r : ReadRes)
  | wait (offset2 : Nat)
deriving DecidableEq

/-- One iteration of the `while True` loop of `Stream.readuntil`, up to
    (not including) `_wait_for_data`.  Mirrors the source: when enough
    data for the separator is buffered, scan from `offset`; a failed scan
    moves the offset to `buflen + 1 - seplen` and raises
    `LimitOverrunError` (not-found) past the limit; then the EOF check
    (`IncompleteReadError` with the buffered bytes, buffer cleared); a
    found match is checked against the limit after the loop and otherwise
    consumed through the separator inclusive. -/
def readuntilIter (sep : List Nat) (limit : Nat) (buf : List Nat)
    (eofF : Bool) (offset : Nat) : IterRes :=
  if offset + sep.length ≤ buf.length then
    match bfind buf sep offset with
    | some isep =>
      .done (if limit < isep then .err (.limitOverrun true isep) buf
             else .ok (buf.take (isep + sep.length)) (buf.drop (isep + sep.length)))
    | none =>
      if limit < buf.length + 1 - sep.length then
        .done (.err (.limitOverrun false (buf.length + 1 - sep.length)) buf)
      else if eofF then .done (.err (.incompleteRead buf none) [])
      else .wait (buf.length + 1 - sep.length)
  else
    if eofF then .done (.err (.incompleteRead buf none) [])
    else .wait offset

/-- The `while True` loop of `Stream.readuntil`: one feed event is
    consumed by `_wait_for_data` per iteration that has to wait. -/
def readuntilLoop (sep : List Nat) (limit : Nat) :
    List Feed → List Nat → Bool → Nat → ReadRes
  | [], buf, eofF, offset =>
    match readuntilIter sep limit buf eofF offset with
    | .done r => r
    | .wait _ => .blocked
  | .data d :: rest, buf, eofF, offset =>
    match readuntilIter sep limit buf eofF offset with
    | .done r => r
    | .wait off2 => readuntilLoop sep limit rest (buf ++ d) eofF off2
  | .eof :: rest, buf, eofF, offset =>
    match readuntilIter sep limit buf eofF offset with
    | .done r => r
    | .wait off2 => readuntilLoop sep limit rest buf true off2

/-- `Stream.readuntil(separator)` on a read-mode stream with no stored
    exception: reject an empty separator (`ValueError`), then run the
    scan loop starting at `offset = 0`. -/
def readuntil (sep : List Nat) (limit : Nat) (buf : List Nat) (eofF : Bool)
    (feeds : List Feed) : ReadRes :=
  if sep.length = 0 then .err .invalidSeparator buf
  else readuntilLoop sep limit feeds buf eofF 0

/-- One iteration of the `while len(self._buffer) < n` loop of
    `Stream.readexactly`, up to (not including) `_wait_for_data`: on EOF
    fail with `IncompleteReadError(partial, n)` and clear the buffer;
    once enough data is buffered return exactly `n` bytes (taking the
    whole buffer when its length is exactly `n`). -/
def readexactlyIter (n : Nat) (buf : List Nat) (eofF : Bool) : Option ReadRes :=
  if buf.length < n then
    if eofF then some (.err (.incompleteRead buf (some n)) [])
    else none
  else
    if buf.length = n then some (.ok buf [])
    else some (.ok (buf.take n) (buf.drop n))

/-- The waiting loop of `Stream.readexactly`. -/
def readexactlyLoop (n : Nat) : List Feed → List Nat → Bool → ReadRes
  | [], buf, eofF =>
    match readexactlyIter n buf eofF with
    | some r => r
    | none => .blocked
  | .data d :: rest, buf, eofF =>
    match readexactlyIter n buf eofF with
    | some r => r
    | none => readexactlyLoop n rest (buf ++ d) eofF
  | .eof :: rest, buf, eofF =>
    match readexactlyIter n buf eofF with
    | some r => r
    | none => readexactlyLoop n rest buf true

/-- `Stream.readexactly(n)` on a read-mode stream with no stored
    exception (`n < 0` is a `ValueError`, excluded by using `Nat`):
    `n = 0` returns the empty byte string at once. -/
def readexactly (n : Nat) (buf : List Nat) (eofF : Bool)
    (feeds : List Feed) : ReadRes :=
  if n = 0 then .ok [] buf
  else readexactlyLoop n feeds buf eofF

/-- A finished iteration determines the result of the whole loop,
    whatever events were still to come. -/
theorem readuntilLoop_done {sep : List Nat} {limit : Nat} {buf : List Nat}
    {eofF : Bool} {offset : Nat} {r : ReadRes}
    (h : readuntilIter sep limit buf eofF offset = .done r)
    (feeds : List Feed) :
    readuntilLoop sep limit feeds buf eofF offset = r := by
  cases feeds with
  | nil => simp [readuntilLoop, h]
  | cons f rest => cases f <;> simp [readuntilLoop, h]

theorem bfind_some {buf sep : List Nat} {offset i : Nat}
    (h : bfind buf sep offset = some i) :
    offset ≤ i ∧ i + sep.length ≤ buf.length ∧
      (buf.drop i).take sep.length = sep := by
  have hp := List.find?_some h
  simp only [Bool.and_eq_true, decide_eq_true_eq] at hp
  exact ⟨hp.1.1, hp.1.2, hp.2⟩

/-- C4: `readuntil` bookkeeping.  (A) After each unsuccessful scan (with
    room for the separator) the loop waits, continuing with the
    already-scanned offset `buflen + 1 - seplen`, which equals
    `max 0 (buflen + 1 - seplen)` over the integers; (B) it fails with
    LimitExceeded(not-found) when that offset exceeds `limit`; (C) a
    found match beyond `limit` fails with LimitExceeded(found); (D) a
    found match within `limit` consumes and returns the data through the
    separator inclusive; (E,F) EOF before a match fails with
    IncompleteRead carrying the buffered bytes and clears the buffer;
    plus the three concrete examples of the claim. -/
theorem readuntil_scan :
    (∀ (sep : List Nat) (limit : Nat) (buf : List Nat) (offset : Nat),
      offset + sep.length ≤ buf.length →
      bfind buf sep offset = none →
      buf.length + 1 - sep.length ≤ limit →
      readuntilIter sep limit buf false offset =
          .wait (buf.length + 1 - sep.length) ∧
      (∀ (d : List Nat) (rest : List Feed),
        readuntilLoop sep limit (.data d :: rest) buf false offset =
          readuntilLoop sep limit rest (buf ++ d) false
            (buf.length + 1 - sep.length)) ∧
      (∀ rest : List Feed,
        readuntilLoop sep limit (.eof :: rest) buf false offset =
          readuntilLoop sep limit rest buf true
            (buf.length + 1 - sep.length)) ∧
      (((buf.length + 1 - sep.length : Nat) : Int) =
        max 0 ((buf.length : Int) + 1 - (sep.length : Int)))) ∧
    (∀ (sep : List Nat) (limit : Nat) (buf : List Nat) (eofF : Bool)
        (offset : Nat) (feeds : List Feed),
      offset + sep.length ≤ buf.length →
      bfind buf sep offset = none →
      limit < buf.length + 1 - sep.length →
      readuntilLoop sep limit feeds buf eofF offset =
        .err (.limitOverrun false (buf.length + 1 - sep.length)) buf) ∧
    (∀ (sep : List Nat) (limit : Nat) (buf : List Nat) (eofF : Bool)
        (offset : Nat) (feeds : List Feed) (i : Nat),
      bfind buf sep offset = some i → limit < i →
      readuntilLoop sep limit feeds buf eofF offset =
        .err (.limitOverrun true i) buf) ∧
    (∀ (sep : List Nat) (limit : Nat) (buf : List Nat) (eofF : Bool)
        (offset : Nat) (feeds : List Feed) (i : Nat),
      bfind buf sep offset = some i → i ≤ limit →
      readuntilLoop sep limit feeds buf eofF offset =
        .ok (buf.take (i + sep.length)) (buf.drop (i + sep.length))) ∧
    (∀ (sep : List Nat) (limit : Nat) (buf : List Nat) (offset : Nat)
        (feeds : List Feed),
      offset + sep.length ≤ buf.length →
      bfind buf sep offset = none →
      buf.length + 1 - sep.length ≤ limit →
      readuntilLoop sep limit feeds buf true offset =
        .err (.incompleteRead buf none) []) ∧
    (∀ (sep : List Nat) (limit : Nat) (buf : List Nat) (offset : Nat)
        (feeds : List Feed),
      buf.length < offset + sep.length →
      readuntilLoop sep limit feeds buf true offset =
        .err (.incompleteRead buf none) []) ∧
    readuntil [10] 65536 [97, 98, 10, 99, 100] false [] =
      .ok [97, 98, 10] [99, 100] ∧
    readuntil [10] 3 [97, 98, 99, 100, 101, 102] false [] =
      .err (.limitOverrun false 6) [97, 98, 99, 100, 101, 102] ∧
    readuntil [10] 65536 [112, 97, 114, 116, 105, 97, 108] true [] =
      .err (.incompleteRead [112, 97, 114, 116, 105, 97, 108] none) [] := by
  refine ⟨?_, ?_, ?_, ?_, ?_, ?_, by decide, by decide, by decide⟩
  · intro sep limit buf offset hg hn hl
    have hiter : readuntilIter sep limit buf false offset =
        .wait (buf.length + 1 - sep.length) := by
      simp [readuntilIter, hg, hn, Nat.not_lt.mpr hl]
    refine ⟨hiter, ?_, ?_, ?_⟩
    · intro d rest
      simp [readuntilLoop, hiter]
    · intro rest
      simp [readuntilLoop, hiter]
    · have hsl : sep.length ≤ buf.length := by omega
      have h2 : (0 : Int) ≤ (buf.length : Int) + 1 - (sep.length : Int) := by
        omega
      rw [max_eq_right h2]
      omega
  · intro sep limit buf eofF offset feeds hg hn hl
    refine readuntilLoop_done ?_ feeds
    simp [readuntilIter, hg, hn, hl]
  · intro sep limit buf eofF offset feeds i hfind hl
    obtain ⟨h1, h2, _⟩ := bfind_some hfind
    have hg : offset + sep.length ≤ buf.length := by omega
    refine readuntilLoop_done ?_ feeds
    simp [readuntilIter, hg, hfind, hl]
  · intro sep limit buf eofF offset feeds i hfind hl
    obtain ⟨h1, h2, _⟩ := bfind_some hfind
    have hg : offset + sep.length ≤ buf.length := by omega
    refine readuntilLoop_done ?_ feeds
    simp [readuntilIter, hg, hfind, Nat.not_lt.mpr hl]
  · intro sep limit buf offset feeds hg hn hl
    refine readuntilLoop_done ?_ feeds
    simp [readuntilIter, hg, hn, Nat.not_lt.mpr hl]
  · intro sep limit buf offset feeds hg
    refine readuntilLoop_done ?_ feeds
    simp [readuntilIter, Nat.not_le.mpr hg]

/-- Witness for C4 at concrete inputs: a scan of `b"abc"` for `b"xy"`
    moves the offset to 2 and then waits; `b"abcdef"` with `limit = 3`
    overruns; a buffered `b"ab\x5cn"` is returned through the newline. -/
theorem readuntil_scan_witness :
    (readuntilIter [120, 121] 65536 [97, 98, 99] false 0 = .wait 2 ∧
      (∀ (d : List Nat) (rest : List Feed),
        readuntilLoop [120, 121] 65536 (.data d :: rest) [97, 98, 99] false 0 =
          readuntilLoop [120, 121] 65536 rest ([97, 98, 99] ++ d) false 2) ∧
      (∀ rest : List Feed,
        readuntilLoop [120, 121] 65536 (.eof :: rest) [97, 98, 99] false 0 =
          readuntilLoop [120, 121] 65536 rest [97, 98, 99] true 2) ∧
      (((3 + 1 - 2 : Nat) : Int) = max 0 ((3 : Int) + 1 - 2))) ∧
    readuntilLoop [10] 3 [] [97, 98, 99, 100, 101, 102] false 0 =
      .err (.limitOverrun false 6) [97, 98, 99, 100, 101, 102] ∧
    readuntilLoop [10] 65536 [] [97, 98, 10, 99, 100] false 0 =
      .ok [97, 98, 10] [99, 100] := by
  refine ⟨?_, ?_, ?_⟩
  · exact readuntil_scan.1 [120, 121] 65536 [97, 98, 99] 0
      (by decide) (by decide) (by decide)
  · exact readuntil_scan.2.1 [10] 3 [97, 98, 99, 100, 101, 102] false 0 []
      (by decide) (by decide) (by decide)
  · exact readuntil_scan.2.2.2.1 [10] 65536 [97, 98, 10, 99, 100] false 0 [] 2
      (by decide) (by decide)

/-- C10: when the buffer already contains a complete occurrence of the
    separator at index `i ≤ limit`, `readuntil` succeeds and returns the
    bytes through that first occurrence, regardless of the EOF flag and
    of any further feeds: the EOF check only runs after a scan fails. -/
theorem readuntil_buffered_match (sep : List Nat) (limit : Nat)
    (buf : List Nat) (eofF : Bool) (feeds : List Feed) (i : Nat)
    (hsep : 1 ≤ sep.length)
    (hfind : bfind buf sep 0 = some i) (hl : i ≤ limit) :
    readuntil sep limit buf eofF feeds =
      .ok (buf.take (i + sep.length)) (buf.drop (i + sep.length)) := by
  rw [readuntil, if_neg (by omega)]
  exact readuntil_scan.2.2.2.1 sep limit buf eofF 0 feeds i hfind hl

/-- Witness for C10: buffer `b"ab\x5cncd"` with EOF already set and a
    pending feed still returns `b"ab\x5cn"`. -/
theorem readuntil_buffered_match_witness :
    readuntil [10] 65536 [97, 98, 10, 99, 100] true [.data [1]] =
      .ok [97, 98, 10] [99, 100] :=
  readuntil_buffered_match [10] 65536 [97, 98, 10, 99, 100] true [.data [1]] 2
    (by decide) (by decide) (by decide)

theorem readexactlyIter_ok {n : Nat} {buf : List Nat} {eofF : Bool}
    {out rest' : List Nat}
    (h : readexactlyIter n buf eofF = some (.ok out rest')) :
    out.length = n := by
  unfold readexactlyIter at h
  by_cases h1 : buf.length < n
  · rw [if_pos h1] at h
    by_cases h2 : eofF = true
    · rw [if_pos h2] at h
      exact absurd (Option.some.inj h) (by simp)
    · rw [if_neg h2] at h
      exact absurd h (by simp)
  · rw [if_neg h1] at h
    by_cases h2 : buf.length = n
    · rw [if_pos h2] at h
      have := Option.some.inj h
      have hout : out = buf := by
        cases this
        rfl
      rw [hout, h2]
    · rw [if_neg h2] at h
      have := Option.some.inj h
      have hout : out = buf.take n := by
        cases this
        rfl
      rw [hout, List.length_take]
      omega

theorem readexactlyIter_err {n : Nat} {buf : List Nat} {eofF : Bool}
    {e : StreamErr} {rest' : List Nat}
    (h : readexactlyIter n buf eofF = some (.err e rest')) :
    rest' = [] ∧ ∃ p, e = .incompleteRead p (some n) ∧ p.length < n := by
  unfold readexactlyIter at h
  by_cases h1 : buf.length < n
  · rw [if_pos h1] at h
    by_cases h2 : eofF = true
    · rw [if_pos h2] at h
      have := Option.some.inj h
      cases this
      exact ⟨rfl, buf, rfl, h1⟩
    · rw [if_neg h2] at h
      exact absurd h (by simp)
  · rw [if_neg h1] at h
    by_cases h2 : buf.length = n
    · rw [if_pos h2] at h
      exact absurd (Option.some.inj h) (by simp)
    · rw [if_neg h2] at h
      exact absurd (Option.some.inj h) (by simp)

theorem readexactlyLoop_spec (n : Nat) :
    ∀ (feeds : List Feed) (buf : List Nat) (eofF : Bool),
      (∀ out rest', readexactlyLoop n feeds buf eofF = .ok out rest' →
        out.length = n) ∧
      (∀ e rest', readexactlyLoop n feeds buf eofF = .err e rest' →
        rest' = [] ∧ ∃ p, e = .incompleteRead p (some n) ∧ p.length < n) := by
  intro feeds
  induction feeds with
  | nil =>
    intro buf eofF
    rcases hi : readexactlyIter n buf eofF with _ | r
    · constructor
      · intro out rest' h
        simp [readexactlyLoop, hi] at h
      · intro e rest' h
        simp [readexactlyLoop, hi] at h
    · constructor
      · intro out rest' h
        simp only [readexactlyLoop, hi] at h
        rw [h] at hi
        exact readexactlyIter_ok hi
      · intro e rest' h
        simp only [readexactlyLoop, hi] at h
        rw [h] at hi
        exact readexactlyIter_err hi
  | cons f rest ih =>
    intro buf eofF
    cases f with
    | data d =>
      rcases hi : readexactlyIter n buf eofF with _ | r
      · constructor
        · intro out rest' h
          simp only [readexactlyLoop, hi] at h
          exact ((ih (buf ++ d) eofF).1) out rest' h
        · intro e rest' h
          simp only [readexactlyLoop, hi] at h
          exact ((ih (buf ++ d) eofF).2) e rest' h
      · constructor
        · intro out rest' h
          simp only [readexactlyLoop, hi] at h
          rw [h] at hi
          exact readexactlyIter_ok hi
        · intro e rest' h
          simp only [readexactlyLoop, hi] at h
          rw [h] at hi
          exact readexactlyIter_err hi
    | eof =>
      rcases hi : readexactlyIter n buf eofF with _ | r
      · constructor
        · intro out rest' h
          simp only [readexactlyLoop, hi] at h
          exact ((ih buf true).1) out rest' h
        · intro e rest' h
          simp only [readexactlyLoop, hi] at h
          exact ((ih buf true).2) e rest' h
      · constructor
        · intro out rest' h
          simp only [readexactlyLoop, hi] at h
          rw [h] at hi
          exact readexactlyIter_ok hi
        · intro e rest' h
          simp only [readexactlyLoop, hi] at h
          rw [h] at hi
          exact readexactlyIter_err hi

/-- C6: `readexactly(n)` loops waiting for data until the buffer holds at
    least `n` bytes and then returns exactly `n` bytes; when EOF arrives
    first it fails with `IncompleteRead(partial, n)` where `partial` is
    the (under-`n`) buffered content at that point and the buffer is
    cleared; in particular `readexactly(10)` on a stream reaching EOF
    after 4 bytes raises IncompleteRead with a 4-byte `partial` and
    `expected = 10`. -/
theorem readexactly_exact :
    (∀ (n : Nat) (buf : List Nat) (eofF : Bool) (feeds : List Feed)
        (out rest' : List Nat),
      readexactly n buf eofF feeds = .ok out rest' → out.length = n) ∧
    (∀ (n : Nat) (buf : List Nat) (eofF : Bool) (feeds : List Feed)
        (e : StreamErr) (rest' : List Nat),
      readexactly n buf eofF feeds = .err e rest' →
        rest' = [] ∧ ∃ p, e = .incompleteRead p (some n) ∧ p.length < n) ∧
    readexactly 10 [] false [.data [1, 2, 3, 4], .eof] =
      .err (.incompleteRead [1, 2, 3, 4] (some 10)) [] := by
  refine ⟨?_, ?_, by decide⟩
  · intro n buf eofF feeds out rest' h
    rw [readexactly] at h
    by_cases h0 : n = 0
    · rw [if_pos h0] at h
      have := ReadRes.ok.inj h
      rw [← this.1, h0]
      rfl
    · rw [if_neg h0] at h
      exact (readexactlyLoop_spec n feeds buf eofF).1 out rest' h
  · intro n buf eofF feeds e rest' h
    rw [readexactly] at h
    by_cases h0 : n = 0
    · rw [if_pos h0] at h
      exact absurd h (by simp)
    · rw [if_neg h0] at h
      exact (readexactlyLoop_spec n feeds buf eofF).2 e rest' h

/-- Witness for C6: a concrete successful exact read of 2 bytes and the
    concrete EOF failure of the claim. -/
theorem readexactly_exact_witness :
    ([5, 6] : List Nat).length = 2 ∧
    (([] : List Nat) = [] ∧ ∃ p, (StreamErr.incompleteRead [1, 2, 3, 4] (some 10)) =
      .incompleteRead p (some 10) ∧ p.length < 10) :=
  ⟨readexactly_exact.1 2 [5, 6, 7] false [] [5, 6] [7] (by decide),
   readexactly_exact.2.1 10 [] false [.data [1, 2, 3, 4], .eof]
     (.incompleteRead [1, 2, 3, 4] (some 10)) [] (by decide)⟩

/-- The fields of `FlowControlMixin` relevant to draining: `_paused`,
    `_drain_waiter` (a future or `None`), `_connection_lost`. -/
structure Flow where
  paused : Bool
  drainWaiter : Option FutState
  connLost : Bool
deriving DecidableEq

/-- `FlowControlMixin.pause_writing` (asserts it is not already
    paused). -/
def Flow.pauseWriting (f : Flow) : Flow := { f with paused := true }

/-- `FlowControlMixin.resume_writing`: clear `paused`; detach the drain
    waiter and resolve it when not done.  The second component is the
    outcome delivered to a suspended `drain()` (`.ok ()` = success),
    `none` when nothing was delivered. -/
def Flow.resumeWriting (f : Flow) : Flow × Option (Except Nat Unit) :=
  match f.drainWaiter with
  | none => ({ f with paused := false }, none)
  | some w =>
    if w.done then ({ f with paused := false, drainWaiter := none }, none)
    else ({ f with paused := false, drainWaiter := none }, some (.ok ()))

/-- `FlowControlMixin.connection_lost(exc)` (errors modelled as `Nat`
    codes, `none` = no error): mark the connection lost; when paused with
    a not-done drain waiter, detach it and deliver success (no error) or
    the error. -/
def Flow.connectionLost (f : Flow) (exc : Option Nat) :
    Flow × Option (Except Nat Unit) :=
  let f1 : Flow := { f with connLost := true }
  if f.paused = false then (f1, none)
  else
    match f.drainWaiter with
    | none => (f1, none)
    | some w =>
      if w.done then ({ f1 with drainWaiter := none }, none)
      else
        match exc with
        | none => ({ f1 with drainWaiter := none }, some (.ok ()))
        | some e => ({ f1 with drainWaiter := none }, some (.error e))

/-- Outcomes of `FlowControlMixin._drain_helper`: raise
    `ConnectionResetError('Connection lost')`, return immediately, or
    create a fresh pending drain waiter and suspend on it. -/
inductive DrainHelperRes where
  | connReset
  | ready (f : Flow)
  | suspended (f : Flow)
deriving DecidableEq

/-- `FlowControlMixin._drain_helper`. -/
def Flow.drainHelper (f : Flow) : DrainHelperRes :=
  if f.connLost then .connReset
  else if f.paused = false then .ready f
  else .suspended { f with drainWaiter := some .pending }

/-- Outcomes of `Stream.drain`. -/
inductive DrainRes where
  | raised (e : Nat)
  | reset
  | ready
  | suspendedDrain
deriving DecidableEq

/-- `Stream.drain` (write mode): re-raise the stored stream exception if
    any; otherwise (after the pure `await sleep(0)` yield when the
    transport is closing) defer to `_drain_helper`. -/
def drain (storedExc : Option Nat) (f : Flow) : DrainRes :=
  match storedExc with
  | some e => .raised e
  | none =>
    match f.drainHelper with
    | .connReset => .reset
    | .ready _ => .ready
    | .suspended _ => .suspendedDrain

/-- Results of `Stream.write`/`Stream._fast_drain`: a future failed with
    the stored exception, a future failed with `ConnectionResetError`,
    the already-complete future (fast path), or a scheduled `drain()`
    task. -/
inductive WriteRes where
  | failed (e : Nat)
  | failedReset
  | completed
  | deferredDrain
deriving DecidableEq

/-- `Stream._fast_drain`, the completion returned by `write`/
    `writelines`: fail with the stored exception; when the transport is
    not closing, fail with `ConnectionResetError` if the protocol lost
    its connection, or complete immediately when not paused; otherwise
    schedule a `drain()` task. -/
def fastDrain (storedExc : Option Nat) (closing : Bool) (f : Flow) :
    WriteRes :=
  match storedExc with
  | some e => .failed e
  | none =>
    if closing = false then
      if f.connLost then .failedReset
      else if f.paused = false then .completed
      else .deferredDrain
    else .deferredDrain

/-- C8: for a drain suspended after `pause_writing()` (paused, pending
    drain waiter): `resume_writing()` completes that drain with success
    and clears `paused`; `connection_lost(err)` with an error fails that
    drain with exactly that error, marks the connection lost, and every
    later drain — and every later write, either directly or through its
    scheduled drain task — fails with `ConnectionResetError` (given no
    separately stored stream exception); `connection_lost(None)`
    completes the suspended drain with success. -/
theorem flow_drain_outcomes (f : Flow)
    (hp : f.paused = true) (hw : f.drainWaiter = some .pending) :
    (Flow.resumeWriting f).2 = some (.ok ()) ∧
    (Flow.resumeWriting f).1.paused = false ∧
    (∀ e : Nat,
      (Flow.connectionLost f (some e)).2 = some (.error e) ∧
      (Flow.connectionLost f (some e)).1.connLost = true ∧
      Flow.drainHelper (Flow.connectionLost f (some e)).1 = .connReset ∧
      drain none (Flow.connectionLost f (some e)).1 = .reset ∧
      (∀ closing : Bool,
        fastDrain none closing (Flow.connectionLost f (some e)).1 =
            .failedReset ∨
          (fastDrain none closing (Flow.connectionLost f (some e)).1 =
              .deferredDrain ∧
            drain none (Flow.connectionLost f (some e)).1 = .reset))) ∧
    (Flow.connectionLost f none).2 = some (.ok ()) := by
  have hdone : FutState.pending.done = false := rfl
  refine ⟨?_, ?_, ?_, ?_⟩
  · simp [Flow.resumeWriting, hw, hdone]
  · simp [Flow.resumeWriting, hw, hdone]
  · intro e
    have hc : Flow.connectionLost f (some e) =
        ({ f with connLost := true, drainWaiter := none }, some (.error e)) := by
      simp [Flow.connectionLost, hp, hw, hdone]
    refine ⟨by rw [hc], by rw [hc], ?_, ?_, ?_⟩
    · rw [hc]
      simp [Flow.drainHelper]
    · rw [hc]
      simp [drain, Flow.drainHelper]
    · intro closing
      cases closing with
      | false =>
        left
        rw [hc]
        simp [fastDrain]
      | true =>
        right
        rw [hc]
        constructor
        · simp [fastDrain]
        · simp [drain, Flow.drainHelper]
  · simp [Flow.connectionLost, hp, hw, hdone]

/-- Witness for C8 at the concrete flow state paused with a pending
    drain waiter. -/
theorem flow_drain_outcomes_witness :
    (Flow.resumeWriting ⟨true, some .pending, false⟩).2 = some (.ok ()) ∧
    (Flow.resumeWriting ⟨true, some .pending, false⟩).1.paused = false ∧
    (∀ e : Nat,
      (Flow.connectionLost ⟨true, some .pending, false⟩ (some e)).2 =
          some (.error e) ∧
      (Flow.connectionLost ⟨true, some .pending, false⟩ (some e)).1.connLost
          = true ∧
      Flow.drainHelper
          (Flow.connectionLost ⟨true, some .pending, false⟩ (some e)).1 =
          .connReset ∧
      drain none
          (Flow.connectionLost ⟨true, some .pending, false⟩ (some e)).1 =
          .reset ∧
      (∀ closing : Bool,
        fastDrain none closing
            (Flow.connectionLost ⟨true, some .pending, false⟩ (some e)).1 =
            .failedReset ∨
          (fastDrain none closing
              (Flow.connectionLost ⟨true, some .pending, false⟩ (some e)).1 =
              .deferredDrain ∧
            drain none
              (Flow.connectionLost ⟨true, some .pending, false⟩ (some e)).1 =
              .reset))) ∧
    (Flow.connectionLost ⟨true, some .pending, false⟩ none).2 =
      some (.ok ()) :=
  flow_drain_outcomes ⟨true, some .pending, false⟩ rfl rfl

/-- The read-side pacing state of a `Stream`: `_buffer`, `_limit`,
    `_eof`, `_paused` (transport reading paused), the single `_waiter`
    future of `_wait_for_data`, and whether `_transport` is set. -/
structure RBuf where
  buffer : List Nat
  limit : Nat
  eofFlag : Bool
  paused : Bool
  waiter : Option FutState
  hasTransport : Bool
deriving DecidableEq

/-- The default pacing limit `_DEFAULT_LIMIT = 2 ** 16`. -/
def defaultLimit : Nat := 2 ^ 16

/-- `Stream._wakeup_waiter`: detach the waiter and resolve it unless it
    was cancelled.  The second component tells whether a waiter was
    actually woken (resolved). -/
def wakeupWaiter (s : RBuf) : RBuf × Bool :=
  match s.waiter with
  | none => (s, false)
  | some w =>
    if w = .cancelled then ({ s with waiter := none }, false)
    else ({ s with waiter := none }, true)

/-- `Stream.feed_data(data)` (requires `not self._eof`): empty data
    returns at once; otherwise append to the buffer, wake the pending
    waiter, and if a transport is attached, reading is not paused and the
    buffer now exceeds `2 * limit`, request `transport.pause_reading()`
    (when the transport does not support it — `pauseSupported = false` —
    the transport is forgotten instead). -/
def feedData (s : RBuf) (d : List Nat) (pauseSupported : Bool) :
    RBuf × Bool :=
  if d = [] then (s, false)
  else
    let p := wakeupWaiter { s with buffer := s.buffer ++ d }
    if p.1.hasTransport = true ∧ p.1.paused = false ∧
        2 * p.1.limit < p.1.buffer.length then
      if pauseSupported then ({ p.1 with paused := true }, p.2)
      else ({ p.1 with hasTransport := false }, p.2)
    else p

/-- `Stream._maybe_resume_transport`: resume reading only when paused and
    the buffer has dropped to at most `limit`. -/
def maybeResumeTransport (s : RBuf) : RBuf :=
  if s.paused = true ∧ s.buffer.length ≤ s.limit then
    { s with paused := false }
  else s

/-- C9 counterexample: feeding the empty byte string to a stream with a
    pending waiter returns early — the buffer is (trivially) unchanged
    but the pending waiter is NOT woken, while the claim promises a
    wakeup for every fed byte sequence `d`. -/
theorem feed_data_empty_cex :
    feedData ⟨[], defaultLimit, false, false, some .pending, true⟩ [] true =
      (⟨[], defaultLimit, false, false, some .pending, true⟩, false) ∧
    (feedData ⟨[], defaultLimit, false, false, some .pending, true⟩
        [] true).1.waiter = some .pending := by
  exact ⟨rfl, rfl⟩

/-- C9 amended: for every NONEMPTY byte sequence `d` fed by
    `feed_data(d)` on a readable stream (not at EOF), `d` is appended to
    the buffer and the single pending waiter, if any, is woken; if the
    buffer then exceeds `2 * limit`, the stream is not already paused and
    a transport is attached, a transport pause is requested (the pause
    flag is set when the transport supports pausing, else the transport
    is forgotten), and otherwise the pause state is unchanged; the
    consume-side helper resumes the transport exactly when paused and the
    buffer has dropped to at most `limit`; the default limit is 65536
    bytes. -/
theorem feed_data_pacing :
    (∀ (s : RBuf) (d : List Nat) (ps : Bool),
      d ≠ [] → s.eofFlag = false →
      (feedData s d ps).1.buffer = s.buffer ++ d ∧
      (s.waiter = some .pending →
        (feedData s d ps).2 = true ∧ (feedData s d ps).1.waiter = none) ∧
      (s.hasTransport = true → s.paused = false →
        2 * s.limit < s.buffer.length + d.length →
        (ps = true → (feedData s d ps).1.paused = true) ∧
        (ps = false → (feedData s d ps).1.hasTransport = false)) ∧
      (¬(s.hasTransport = true ∧ s.paused = false ∧
          2 * s.limit < s.buffer.length + d.length) →
        (feedData s d ps).1.paused = s.paused ∧
        (feedData s d ps).1.hasTransport = s.hasTransport)) ∧
    (∀ s : RBuf, (maybeResumeTransport s).paused = false →
      s.paused = true → s.buffer.length ≤ s.limit) ∧
    (∀ s : RBuf, s.paused = true → s.buffer.length ≤ s.limit →
      (maybeResumeTransport s).paused = false) ∧
    defaultLimit = 65536 := by
  refine ⟨?_, ?_, ?_, rfl⟩
  · intro s d ps hd he
    have hwk : ∀ t : RBuf, (wakeupWaiter t).1.buffer = t.buffer ∧
        (wakeupWaiter t).1.limit = t.limit ∧
        (wakeupWaiter t).1.paused = t.paused ∧
        (wakeupWaiter t).1.hasTransport = t.hasTransport := by
      intro t
      rcases hw : t.waiter with _ | w
      · simp [wakeupWaiter, hw]
      · by_cases hc : w = .cancelled <;> simp [wakeupWaiter, hw, hc]
    obtain ⟨hb, hl, hpz, htr⟩ := hwk ({ s with buffer := s.buffer ++ d })
    have hlen : ({ s with buffer := s.buffer ++ d } : RBuf).buffer.length =
        s.buffer.length + d.length := by
      simp
    have hcond : ((wakeupWaiter { s with buffer := s.buffer ++ d }).1.hasTransport
          = true ∧
        (wakeupWaiter { s with buffer := s.buffer ++ d }).1.paused = false ∧
        2 * (wakeupWaiter { s with buffer := s.buffer ++ d }).1.limit <
          (wakeupWaiter { s with buffer := s.buffer ++ d }).1.buffer.length) ↔
        (s.hasTransport = true ∧ s.paused = false ∧
          2 * s.limit < s.buffer.length + d.length) := by
      rw [hb, hl, hpz, htr, hlen]
    by_cases hth : s.hasTransport = true ∧ s.paused = false ∧
        2 * s.limit < s.buffer.length + d.length
    · have hcpos := hcond.mpr hth
      refine ⟨?_, ?_, ?_, ?_⟩
      · simp only [feedData, if_neg hd, if_pos hcpos]
        cases ps <;> simpa using hb
      · intro hwp
        have hwake : wakeupWaiter ({ s with buffer := s.buffer ++ d }) =
            ({ s with buffer := s.buffer ++ d, waiter := none }, true) := by
          simp [wakeupWaiter, hwp]
        constructor <;>
          · simp only [feedData, if_neg hd, if_pos hcpos]
            cases ps <;> simp [hwake]
      · intro _ _ _
        constructor <;>
          · intro hps
            subst hps
            simp only [feedData, if_neg hd, if_pos hcpos]
            rfl
      · intro hcon
        exact absurd hth hcon
    · have hcneg := fun hc => hth (hcond.mp hc)
      refine ⟨?_, ?_, ?_, ?_⟩
      · simp only [feedData, if_neg hd, if_neg hcneg]
        simpa using hb
      · intro hwp
        have hwake : wakeupWaiter ({ s with buffer := s.buffer ++ d }) =
            ({ s with buffer := s.buffer ++ d, waiter := none }, true) := by
          simp [wakeupWaiter, hwp]
        simp only [feedData, if_neg hd, hwake]
        constructor
        · split_ifs <;> rfl
        · split_ifs <;> rfl
      · intro h1 h2 h3
        exact absurd ⟨h1, h2, h3⟩ hth
      · intro _
        simp only [feedData, if_neg hd, if_neg hcneg]
        exact ⟨by simpa using hpz, by simpa using htr⟩
  · intro s hres hp
    by_cases h : s.paused = true ∧ s.buffer.length ≤ s.limit
    · exact h.2
    · rw [maybeResumeTransport, if_neg h] at hres
      rw [hres] at hp
      exact absurd hp (by simp)
  · intro s h1 h2
    rw [maybeResumeTransport, if_pos ⟨h1, h2⟩]

/-- Witness for the amended C9: feeding 3 bytes to a paused-threshold
    stream (limit 1, empty buffer, pending waiter, transport attached)
    appends, wakes the waiter and pauses the transport; the concrete
    resume helper facts; and the default limit value. -/
theorem feed_data_pacing_witness :
    ((feedData ⟨[], 1, false, false, some .pending, true⟩ [7, 8, 9] true).1.buffer
        = [] ++ [7, 8, 9] ∧
      ((feedData ⟨[], 1, false, false, some .pending, true⟩ [7, 8, 9] true).2
          = true ∧
        (feedData ⟨[], 1, false, false, some .pending, true⟩
            [7, 8, 9] true).1.waiter = none) ∧
      (feedData ⟨[], 1, false, false, some .pending, true⟩
          [7, 8, 9] true).1.paused = true) ∧
    ([9, 9] : List Nat).length ≤ 2 ∧
    (maybeResumeTransport ⟨[4], 1, false, true, none, true⟩).paused = false ∧
    defaultLimit = 65536 := by
  obtain ⟨ha, hb, hc, hdflt⟩ := feed_data_pacing
  obtain ⟨g1, g2, g3, _⟩ := ha ⟨[], 1, false, false, some .pending, true⟩
    [7, 8, 9] true (by decide) rfl
  refine ⟨⟨g1, g2 rfl, ?_⟩, ?_, ?_, hdflt⟩
  · exact (g3 rfl rfl (by decide)).1 rfl
  · exact hb ⟨[9, 9], 2, false, true, none, true⟩ (by decide) rfl
  · exact hc ⟨[4], 1, false, true, none, true⟩ rfl (by decide)

end Asyncio
